import Mathlib

/-!
# Verification of the financial ledger application

A shallow embedding of the data model and the operations of
`financial_app.py` (a pandas-based revenue/expense dashboard), together
with theorems settling the specified properties of the ingestion,
reconciliation and aggregation pipeline.

Modelling conventions:
* a pandas DataFrame of transactions is a `List TransactionRecord`;
* monetary amounts are exact integers (the claims are about exact
  arithmetic identities, not floating-point rounding);
* a spreadsheet cell is a `Cell`: missing (`blank`, the NaN/NaT case),
  numeric, a calendar date, or free text.  `pd.to_numeric` with coerce
  followed by `fillna(0)` maps non-numeric cells to `0`; `pd.to_datetime`
  with coerce maps non-date cells to the missing marker.  Date strings
  that parse are modelled as `Cell.date` values, since `read_excel`
  already delivers date-typed cells for date columns;
* the header handling of the source is modelled as written, including
  its off-by-one between the scan index and the re-read (see
  `find_header_idx` and `load_excel_file`).
-/

set_option maxRecDepth 4000

/-- A spreadsheet / ledger cell value. `blank` stands for a missing value
(NaN or NaT). -/
inductive Cell where
  | blank
  | num (v : Int)
  | date (d : Int)
  | text (s : String)
deriving DecidableEq, Repr

/-- One financial event, mirroring one row of the application DataFrame
(columns: date, month, account, payment type, description, reference,
expense, revenue, addedBy, addedTimestamp, addedManually). -/
structure TransactionRecord where
  date : Cell
  month : Cell
  account : Cell
  paymentType : Cell
  description : Cell
  reference : Cell
  expense : Int
  revenue : Int
  addedBy : String
  addedTimestamp : String
  addedManually : Bool
deriving DecidableEq, Repr

/-- The composite deduplication key: the duplicate scan on the
file-management page uses the column subset
(date, account, expense, revenue). -/
def dupKey (r : TransactionRecord) : Cell × Cell × Int × Int :=
  (r.date, r.account, r.expense, r.revenue)

/-- Number of records of `df` carrying the composite key `k`. -/
def countKey (df : List TransactionRecord) (k : Cell × Cell × Int × Int) : Nat :=
  (df.filter (fun s => decide (dupKey s = k))).length

/-- `df[df.duplicated(subset=duplicate_cols, keep=False)]`: every record
whose composite key occurs at least twice in the ledger, in ledger order. -/
def findDuplicates (df : List TransactionRecord) : List TransactionRecord :=
  df.filter (fun r => decide (2 ≤ countKey df (dupKey r)))

/-- `df.drop_duplicates(subset=duplicate_cols, keep=first)`: keep the
first record of each composite-key group in ledger order, drop the rest. -/
def drop_duplicates : List TransactionRecord → List TransactionRecord
  | [] => []
  | r :: rs => r :: drop_duplicates (rs.filter (fun s => decide (dupKey s ≠ dupKey r)))
termination_by l => l.length
decreasing_by
  simp only [List.length_cons]
  exact Nat.lt_succ_of_le (List.length_filter_le _ _)

/-- The summary produced by `calculate_statistics`. -/
structure Statistics where
  total_revenue : Int
  total_expense : Int
  net_profit : Int
  total_transactions : Nat
deriving DecidableEq, Repr

/-- `calculate_statistics`: pure column sums over the ledger; the net
profit is revenue minus expense and the transaction count is the length. -/
def calculate_statistics (df : List TransactionRecord) : Statistics :=
  { total_revenue := (df.map TransactionRecord.revenue).sum
    total_expense := (df.map TransactionRecord.expense).sum
    net_profit := (df.map TransactionRecord.revenue).sum - (df.map TransactionRecord.expense).sum
    total_transactions := df.length }

/-- One entry of the persisted modification history. -/
structure AuditEntry where
  timestamp : String
  action : String
  details : String
deriving DecidableEq, Repr

/-- `add_to_history`: insert the new entry at position 0 of the loaded
history, then truncate with `history[:100]` and persist.  The current
timestamp is passed in as `now`. -/
def add_to_history (now action details : String) (history : List AuditEntry) :
    List AuditEntry :=
  ({ timestamp := now, action := action, details := details } :: history).take 100

/-- A sequence of `add_to_history` calls (timestamp, action, details),
applied oldest first. -/
def run_history_calls (calls : List (String × String × String))
    (history : List AuditEntry) : List AuditEntry :=
  calls.foldl (fun acc c => add_to_history c.1 c.2.1 c.2.2 acc) history

/-- The date-column label that identifies the header row. -/
def dateLabel : String := "التاريخ"

/-- A raw spreadsheet row of the data sheet, before normalization: one
cell per expected column. -/
structure RawRow where
  date : Cell
  month : Cell
  account : Cell
  paymentType : Cell
  description : Cell
  reference : Cell
  expense : Cell
  revenue : Cell
deriving DecidableEq, Repr

/-- The cells of a raw row, in column order. -/
def rowCells (r : RawRow) : List Cell :=
  [r.date, r.month, r.account, r.paymentType, r.description, r.reference,
   r.expense, r.revenue]

/-- Rendering of one cell inside the row serialization used by the header
scan (a missing value prints as nan). -/
def serializeCell : Cell → String
  | Cell.blank => "nan"
  | Cell.num v => toString v
  | Cell.date d => toString d
  | Cell.text s => s

/-- The serialized contents of a row, as inspected by the header scan. -/
def serializeRow (r : RawRow) : String :=
  String.intercalate " " ((rowCells r).map serializeCell)

/-- Whether `pat` occurs as a contiguous sub-list of the character list. -/
def hasSubList (pat : List Char) : List Char → Bool
  | [] => pat.isEmpty
  | c :: cs => pat.isPrefixOf (c :: cs) || hasSubList pat cs

/-- Whether `pat` occurs as a substring of `s`. -/
def strContainsSub (s pat : String) : Bool :=
  hasSubList pat.toList s.toList

/-- The membership test of the header scan: the date label occurs in the
serialized contents of the row. -/
def rowHasHeaderLabel (r : RawRow) : Bool :=
  strContainsSub (serializeRow r) dateLabel

/-- The header scan of `load_excel_file`.  The first `read_excel` call
consumes the top sheet row as column names, so `iterrows` runs over the
remaining rows only and yields DataFrame indices: the scan result is the
sheet row number of the first label-bearing row MINUS ONE, and the top
sheet row is never scanned. -/
def find_header_idx (rows : List RawRow) : Option Nat :=
  (rows.drop 1).findIdx? rowHasHeaderLabel

/-- `df.dropna(how=all)` row test: every cell of the row is missing. -/
def rowIsAllBlank (r : RawRow) : Bool :=
  (rowCells r).all (fun c => decide (c = Cell.blank))

/-- `pd.to_numeric(col, errors=coerce).fillna(0)` on one cell: numeric
cells keep their value, everything else becomes 0. -/
def to_numeric_fillna0 : Cell → Int
  | Cell.num v => v
  | _ => 0

/-- `pd.to_datetime(col, errors=coerce)` on one cell: date cells are kept,
numeric cells convert, anything else becomes the missing marker (NaT). -/
def to_datetime : Cell → Cell
  | Cell.date d => Cell.date d
  | Cell.num v => Cell.date v
  | _ => Cell.blank

/-- Position of the first cell of the column-name row equal to the given
label: the name-based column lookup of the re-read DataFrame. -/
def colIdx (hdr : RawRow) (label : String) : Option Nat :=
  (rowCells hdr).findIdx? (fun c => decide (c = Cell.text label))

/-- Cell of a row at column position `i` (missing past the end). -/
def getCol (r : RawRow) (i : Nat) : Cell :=
  (rowCells r).getD i Cell.blank

/-- Value of the column named `label` — per the column-name row `hdr` —
in data row `r`; missing when no column carries that name. -/
def lookupCol (hdr r : RawRow) (label : String) : Cell :=
  match colIdx hdr label with
  | some i => getCol r i
  | none => Cell.blank

/-- The record built from one retained data row, every column looked up
by name through the column-name row `hdr`: numeric coercion of the
amount columns, date coercion of the date column, and the bulk-import
stamps. -/
def importRecord (hdr : RawRow) (r : RawRow) : TransactionRecord :=
  { date := to_datetime (lookupCol hdr r dateLabel)
    month := lookupCol hdr r "الشهر"
    account := lookupCol hdr r "الحساب"
    paymentType := lookupCol hdr r "النوع"
    description := lookupCol hdr r "وصف العملية"
    reference := lookupCol hdr r "المرجع"
    expense := to_numeric_fillna0 (lookupCol hdr r "مصروف")
    revenue := to_numeric_fillna0 (lookupCol hdr r "ايراد")
    addedBy := ""
    addedTimestamp := ""
    addedManually := false }

/-- `load_excel_file`, including the header off-by-one of the source.
`header_idx` is a DataFrame index of the first read — the sheet row
number of the matched row minus one — while the second `read_excel` call
interprets it as a sheet row number.  The re-read therefore takes its
column names from the sheet row ABOVE the matched one and keeps the
matched row itself as the first data row.  When that column-name row
lacks the date, expense or revenue label, the later column accesses
raise (KeyError), which the surrounding handler converts to `none`.
Otherwise fully empty rows and rows with a missing date cell are dropped
and the survivors are normalized. -/
def load_excel_file (rows : List RawRow) : Option (List TransactionRecord) :=
  match find_header_idx rows with
  | none => none
  | some i =>
    match rows[i]? with
    | none => none
    | some hdr =>
      if (colIdx hdr dateLabel).isSome && (colIdx hdr "مصروف").isSome &&
          (colIdx hdr "ايراد").isSome then
        let body := rows.drop (i + 1)
        let body2 := body.filter (fun r => !rowIsAllBlank r)
        let body3 := body2.filter
          (fun r => decide (lookupCol hdr r dateLabel ≠ Cell.blank))
        some (body3.map (importRecord hdr))
      else none

/-- One entry of the loaded-files registry. -/
structure FileRecord where
  name : String
  rows : Nat
  date : String
deriving DecidableEq, Repr

/-- The file-level deduplication gate of the upload loop: if the name is
already registered, return false without mutation; otherwise append a new
`FileRecord` stamped with the current time. -/
def register (now : String) (name : String) (rowCount : Nat)
    (reg : List FileRecord) : Bool × List FileRecord :=
  if name ∈ reg.map FileRecord.name then (false, reg)
  else (true, reg ++ [{ name := name, rows := rowCount, date := now }])

/-- The application state touched by the upload loop: the ledger (None
until the first successful load), the loaded-files registry, and the
audit history. -/
structure AppState where
  df : Option (List TransactionRecord)
  loaded_files : List FileRecord
  history : List AuditEntry
deriving DecidableEq, Repr

/-- An uploaded spreadsheet: its file name and the raw rows of its data
sheet. -/
structure ExcelFile where
  name : String
  rows : List RawRow
deriving DecidableEq, Repr

/-- One iteration of the upload loop: skip files whose name is already
registered; otherwise normalize, and only on success register the file,
append the new records to the ledger, and record an audit entry. -/
def process_upload (now : String) (st : AppState) (file : ExcelFile) : AppState :=
  if file.name ∈ st.loaded_files.map FileRecord.name then st
  else
    match load_excel_file file.rows with
    | none => st
    | some df_new =>
      { df := some (match st.df with
          | none => df_new
          | some d => d ++ df_new)
        loaded_files := st.loaded_files ++
          [{ name := file.name, rows := df_new.length, date := now }]
        history := add_to_history now "تحميل ملف"
          ("تم تحميل " ++ toString df_new.length ++ " عملية من " ++ file.name)
          st.history }

/-- The whole upload loop over a batch of files. -/
def process_uploads (now : String) (st : AppState) (files : List ExcelFile) :
    AppState :=
  files.foldl (process_upload now) st

/-- The transaction type radio button of the manual-entry form. -/
inductive TransactionType where
  | revenue
  | expense
deriving DecidableEq, Repr

/-- The submit handler of the manual-entry form: reject the submission —
leaving the ledger untouched — if any required field is empty or the
amount is not strictly positive; otherwise append one new record with the
manual-entry stamps. -/
def add_transaction (df : List TransactionRecord) (now : String)
    (added_by : String) (transaction_date : Cell) (selected_month : String)
    (account : String) (payment_type : String) (description : String)
    (reference : String) (transaction_type : TransactionType) (amount : Int) :
    List TransactionRecord :=
  if added_by = "" ∨ selected_month = "" ∨ account = "" ∨ payment_type = "" ∨
      description = "" ∨ amount ≤ 0 then df
  else
    df ++ [{ date := transaction_date
             month := Cell.text selected_month
             account := Cell.text account
             paymentType := Cell.text payment_type
             description := Cell.text description
             reference := Cell.text reference
             expense := if transaction_type = TransactionType.expense then amount else 0
             revenue := if transaction_type = TransactionType.revenue then amount else 0
             addedBy := added_by
             addedTimestamp := now
             addedManually := true }]

/-- The canonical month ordering used as the category list of the monthly
chart (January through December, in the locale month names of the
source). -/
def month_order : List String :=
  ["يناير", "فبراير", "مارس", "ابريل", "مايو", "يونيو",
   "يوليو", "أغسطس", "سبتمبر", "أكتوبر", "نوفمبر", "ديسمبر"]

/-- One output row of the monthly rollup. -/
structure MonthRow where
  month : Cell
  revenue : Int
  expense : Int
deriving DecidableEq, Repr

/-- Position of a month cell in the canonical category list; cells not in
the list map past the end (the categorical NaN, which sorts last). -/
def monthIndexAux (c : Cell) : List String → Nat
  | [] => 0
  | m :: ms => if c = Cell.text m then 0 else monthIndexAux c ms + 1

/-- Position of a month cell in `month_order`. -/
def monthIndex (c : Cell) : Nat :=
  monthIndexAux c month_order

/-- The groupby step of the monthly chart: one row per distinct month
value of the ledger, with the column sums of that group. -/
def group_sum (df : List TransactionRecord) : List MonthRow :=
  ((df.map TransactionRecord.month).dedup).map (fun m =>
    { month := m
      revenue := ((df.filter (fun r => decide (r.month = m))).map
        TransactionRecord.revenue).sum
      expense := ((df.filter (fun r => decide (r.month = m))).map
        TransactionRecord.expense).sum })

/-- The monthly rollup of `display_charts`: group by month, then convert
the month column to an ordered categorical over `month_order` and sort by
it. -/
def monthly_data (df : List TransactionRecord) : List MonthRow :=
  List.mergeSort (group_sum df)
    (fun a b => decide (monthIndex a.month ≤ monthIndex b.month))

/-- A concrete header row: the first cell carries the date label. -/
def sampleHeaderRow : RawRow :=
  { date := Cell.text "التاريخ", month := Cell.text "الشهر",
    account := Cell.text "الحساب", paymentType := Cell.text "النوع",
    description := Cell.text "وصف العملية", reference := Cell.text "المرجع",
    expense := Cell.text "مصروف", revenue := Cell.text "ايراد" }

/-- A concrete fully-empty row. -/
def sampleBlankRow : RawRow :=
  { date := Cell.blank, month := Cell.blank, account := Cell.blank,
    paymentType := Cell.blank, description := Cell.blank,
    reference := Cell.blank, expense := Cell.blank, revenue := Cell.blank }

/-- A concrete data row whose expense cell is non-numeric text. -/
def sampleDataRow : RawRow :=
  { date := Cell.date 20250101, month := Cell.text "يناير",
    account := Cell.text "Bank", paymentType := Cell.text "نقدي",
    description := Cell.text "x", reference := Cell.blank,
    expense := Cell.text "abc", revenue := Cell.num 500 }

/-- A concrete import table: header, an empty row, one data row. -/
def sampleRows : List RawRow := [sampleHeaderRow, sampleBlankRow, sampleDataRow]

/-- A concrete banner row as found above a header: free text without the
date label. -/
def sampleTitleRow : RawRow :=
  { date := Cell.text "نظام المالية", month := Cell.blank,
    account := Cell.blank, paymentType := Cell.blank,
    description := Cell.blank, reference := Cell.blank,
    expense := Cell.blank, revenue := Cell.blank }

/-- A concrete ledger record in the given month. -/
def mkMonthRecord (m : String) (rev exp : Int) : TransactionRecord :=
  { date := Cell.date 0, month := Cell.text m, account := Cell.text "Bank",
    paymentType := Cell.blank, description := Cell.blank, reference := Cell.blank,
    expense := exp, revenue := rev, addedBy := "", addedTimestamp := "",
    addedManually := false }

/-- A concrete ledger whose months arrive out of canonical order. -/
def sampleLedger : List TransactionRecord :=
  [mkMonthRecord "مارس" 10 0, mkMonthRecord "يناير" 0 5]

theorem process_upload_of_load_none (now : String) (st : AppState) (f : ExcelFile)
    (h : load_excel_file f.rows = none) : process_upload now st f = st := by
  unfold process_upload
  split
  · rfl
  · rw [h]

theorem run_history_calls_cons_le (cs : List (String × String × String))
    (c : String × String × String) (history : List AuditEntry) :
    (run_history_calls (c :: cs) history).length ≤ 100 := by
  induction cs generalizing c history with
  | nil =>
    simp [run_history_calls, add_to_history, List.length_take]
  | cons d ds ih =>
    exact ih d (add_to_history c.1 c.2.1 c.2.2 history)

/-- C2: `calculate_statistics` of the empty ledger is the all-zero
summary; on every ledger the net profit equals total revenue minus total
expense; and the summary is linear-additive under ledger concatenation,
field by field. -/
theorem calculate_statistics_spec :
    calculate_statistics [] =
      { total_revenue := 0, total_expense := 0, net_profit := 0,
        total_transactions := 0 }
    ∧ (∀ df, (calculate_statistics df).net_profit =
        (calculate_statistics df).total_revenue -
          (calculate_statistics df).total_expense)
    ∧ (∀ df1 df2 : List TransactionRecord,
        calculate_statistics (df1 ++ df2) =
          { total_revenue := (calculate_statistics df1).total_revenue +
              (calculate_statistics df2).total_revenue
            total_expense := (calculate_statistics df1).total_expense +
              (calculate_statistics df2).total_expense
            net_profit := (calculate_statistics df1).net_profit +
              (calculate_statistics df2).net_profit
            total_transactions := (calculate_statistics df1).total_transactions +
              (calculate_statistics df2).total_transactions }) := by
  refine ⟨rfl, fun df => rfl, fun df1 df2 => ?_⟩
  simp only [calculate_statistics, List.map_append, List.sum_append,
    List.length_append, Statistics.mk.injEq, true_and, and_true,
    eq_self_iff_true]
  omega

/-- C3: every `add_to_history` call prepends one fresh entry and keeps
only the 100 most recent entries by insertion position, so the log never
exceeds 100 entries after any nonempty sequence of calls, and a call on a
full log evicts the oldest entry. -/
theorem add_to_history_cap (now action details : String)
    (history : List AuditEntry) :
    add_to_history now action details history =
      { timestamp := now, action := action, details := details } :: history.take 99
    ∧ (add_to_history now action details history).length =
        min 100 (history.length + 1)
    ∧ (add_to_history now action details history).length ≤ 100
    ∧ ∀ calls : List (String × String × String), calls ≠ [] →
        (run_history_calls calls history).length ≤ 100 := by
  have hlen : (add_to_history now action details history).length =
      min 100 (history.length + 1) := by
    simp only [add_to_history, List.length_take, List.length_cons]
  refine ⟨rfl, hlen, by rw [hlen]; omega, ?_⟩
  intro calls hne
  cases calls with
  | nil => exact absurd rfl hne
  | cons c cs => exact run_history_calls_cons_le cs c history

theorem add_to_history_cap_witness :
    (run_history_calls [("t1", "a1", "d1")] []).length ≤ 100 :=
  (add_to_history_cap "t1" "a1" "d1" []).2.2.2 [("t1", "a1", "d1")] (by decide)

/-- C7: registering the same file name twice mutates the registry only on
the first call: the second call returns false with the registry unchanged,
and the upload loop is a complete no-op (ledger included) on a file whose
name is already registered. -/
theorem register_idempotent (now1 now2 n : String) (c1 c2 : Nat)
    (reg : List FileRecord) :
    register now2 n c2 (register now1 n c1 reg).2 =
      (false, (register now1 n c1 reg).2)
    ∧ ∀ (st : AppState) (f : ExcelFile),
        f.name ∈ st.loaded_files.map FileRecord.name →
          process_upload now2 st f = st := by
  constructor
  · by_cases hmem : n ∈ reg.map FileRecord.name
    · simp [register, hmem]
    · simp [register, hmem]
  · intro st f hf
    simp [process_upload, hf]

theorem register_idempotent_witness :
    process_upload "t2"
        { df := none,
          loaded_files := [{ name := "a.xlsx", rows := 3, date := "t1" }],
          history := [] }
        { name := "a.xlsx", rows := [] } =
      { df := none,
        loaded_files := [{ name := "a.xlsx", rows := 3, date := "t1" }],
        history := [] } :=
  (register_idempotent "t1" "t2" "a.xlsx" 3 0 []).2
    { df := none,
      loaded_files := [{ name := "a.xlsx", rows := 3, date := "t1" }],
      history := [] }
    { name := "a.xlsx", rows := [] } (by decide)

/-- C9: a manual-entry submission with any empty required field or a
non-positive amount leaves the ledger exactly unchanged; an accepted
submission appends exactly one record, stamped addedManually, with
exactly one of the expense/revenue amounts non-zero. -/
theorem add_transaction_validation (df : List TransactionRecord)
    (now added_by : String) (transaction_date : Cell)
    (selected_month account payment_type description reference : String)
    (transaction_type : TransactionType) (amount : Int) :
    (added_by = "" ∨ selected_month = "" ∨ account = "" ∨ payment_type = "" ∨
        description = "" ∨ amount ≤ 0 →
      add_transaction df now added_by transaction_date selected_month account
        payment_type description reference transaction_type amount = df)
    ∧ (added_by ≠ "" → selected_month ≠ "" → account ≠ "" → payment_type ≠ "" →
        description ≠ "" → 0 < amount →
      ∃ rec, add_transaction df now added_by transaction_date selected_month
          account payment_type description reference transaction_type amount =
            df ++ [rec]
        ∧ rec.addedManually = true
        ∧ ((rec.expense ≠ 0 ∧ rec.revenue = 0) ∨
            (rec.expense = 0 ∧ rec.revenue ≠ 0))) := by
  constructor
  · intro h
    simp only [add_transaction, if_pos h]
  · intro h1 h2 h3 h4 h5 h6
    have hcond : ¬(added_by = "" ∨ selected_month = "" ∨ account = "" ∨
        payment_type = "" ∨ description = "" ∨ amount ≤ 0) := by
      simp only [not_or]
      exact ⟨h1, h2, h3, h4, h5, by omega⟩
    unfold add_transaction
    rw [if_neg hcond]
    refine ⟨_, rfl, rfl, ?_⟩
    cases transaction_type with
    | revenue =>
      right
      exact ⟨by simp, by simpa using by omega⟩
    | expense =>
      left
      exact ⟨by simpa using by omega, by simp⟩

theorem add_transaction_validation_witness :
    (add_transaction [] "2025-09-30T10:00:00" "user" (Cell.date 0) "يناير"
      "Bank" "نقدي" "desc" "" TransactionType.revenue 50).length = 1 := by
  obtain ⟨rec, h1, h2, h3⟩ :=
    (add_transaction_validation [] "2025-09-30T10:00:00" "user" (Cell.date 0)
      "يناير" "Bank" "نقدي" "desc" "" TransactionType.revenue 50).2
      (by decide) (by decide) (by decide) (by decide) (by decide) (by decide)
  rw [h1]
  rfl

/-- C10: when normalization of an uploaded file fails, the upload loop
leaves the whole application state unchanged for that file — no registry
entry, no ledger append, no audit entry — so an unregistered name stays
unregistered and can be retried. -/
theorem failed_upload_is_noop (now : String) (st : AppState) (f : ExcelFile)
    (h : load_excel_file f.rows = none) :
    process_upload now st f = st
    ∧ (process_upload now st f).df = st.df
    ∧ (process_upload now st f).loaded_files = st.loaded_files
    ∧ (process_upload now st f).history = st.history
    ∧ (f.name ∉ st.loaded_files.map FileRecord.name →
        f.name ∉ (process_upload now st f).loaded_files.map FileRecord.name) := by
  have h0 := process_upload_of_load_none now st f h
  exact ⟨h0, by rw [h0], by rw [h0], by rw [h0], fun hn => by rwa [h0]⟩

theorem failed_upload_is_noop_witness :
    process_upload "t" { df := none, loaded_files := [], history := [] }
        { name := "bad.xlsx", rows := [sampleDataRow] } =
      { df := none, loaded_files := [], history := [] } :=
  (failed_upload_is_noop "t" { df := none, loaded_files := [], history := [] }
    { name := "bad.xlsx", rows := [sampleDataRow] } (by decide)).1

/-- C8: when no row of the table contains the date-column label, that
file fails to load with the header-not-found error, and in a batch the
failing file contributes nothing while the remaining files are processed
exactly as if it were absent. -/
theorem header_not_found_spec (rows : List RawRow)
    (h : ∀ r ∈ rows, rowHasHeaderLabel r = false) :
    load_excel_file rows = none
    ∧ ∀ (now : String) (st : AppState) (name : String) (rest : List ExcelFile),
        process_uploads now st ({ name := name, rows := rows } :: rest) =
          process_uploads now st rest := by
  have hnone : load_excel_file rows = none := by
    have hidx : find_header_idx rows = none := by
      unfold find_header_idx
      exact List.findIdx?_eq_none_iff.mpr
        (fun r hr => h r (List.mem_of_mem_drop hr))
    unfold load_excel_file
    rw [hidx]
  refine ⟨hnone, fun now st name rest => ?_⟩
  simp only [process_uploads, List.foldl_cons]
  rw [process_upload_of_load_none now st { name := name, rows := rows } hnone]

theorem header_not_found_spec_witness :
    process_uploads "t" { df := none, loaded_files := [], history := [] }
        [{ name := "bad.xlsx", rows := [sampleDataRow] }] =
      process_uploads "t" { df := none, loaded_files := [], history := [] } [] :=
  (header_not_found_spec [sampleDataRow] (by decide)).2 "t"
    { df := none, loaded_files := [], history := [] } "bad.xlsx" []

/-- C4: the claim fails on the code through a header off-by-one.  The
scan result `header_idx` is the matched sheet row number minus one (the
first read consumes the top row), yet the re-read treats it as a sheet
row number, taking its column names from the row above the match and
keeping the matched row as data.  Hence: a table whose identifiable
header row is the top row — the layout the application itself exports —
is never matched by the scan and the import fails; a table with a banner
row above the header is matched, but the re-read names its columns after
the banner row, the date-column access raises, and the import fails; in
a layout that does succeed (a duplicated header row) the matched row
itself is normalized into a bogus record.  The claimed
one-record-per-qualifying-row normalization therefore does not hold on
tables with an identifiable header row. -/
theorem load_excel_file_header_off_by_one :
    (rowHasHeaderLabel sampleHeaderRow = true
      ∧ load_excel_file [sampleHeaderRow, sampleDataRow] = none)
    ∧ (rowHasHeaderLabel sampleHeaderRow = true
      ∧ load_excel_file [sampleTitleRow, sampleHeaderRow, sampleDataRow] = none)
    ∧ (load_excel_file [sampleHeaderRow, sampleHeaderRow, sampleDataRow]).map
        List.length = some 2 := by
  decide

theorem dd_nil : drop_duplicates [] = [] := by simp [drop_duplicates]

theorem dd_cons (r : TransactionRecord) (rs : List TransactionRecord) :
    drop_duplicates (r :: rs) =
      r :: drop_duplicates (rs.filter (fun s => decide (dupKey s ≠ dupKey r))) := by
  simp [drop_duplicates]

theorem dd_sublist (l : List TransactionRecord) :
    List.Sublist (drop_duplicates l) l := by
  induction l using drop_duplicates.induct with
  | case1 => simp [drop_duplicates]
  | case2 r rs ih =>
    rw [dd_cons]
    exact (ih.trans (List.filter_sublist rs)).cons₂ r

theorem dd_keys_nodup (l : List TransactionRecord) :
    ((drop_duplicates l).map dupKey).Nodup := by
  induction l using drop_duplicates.induct with
  | case1 => simp [drop_duplicates]
  | case2 r rs ih =>
    rw [dd_cons, List.map_cons, List.nodup_cons]
    refine ⟨?_, ih⟩
    intro hmem
    obtain ⟨s, hs, hkey⟩ := List.mem_map.mp hmem
    have hs2 : s ∈ rs.filter (fun s => decide (dupKey s ≠ dupKey r)) :=
      (dd_sublist _).subset hs
    have hne := (List.mem_filter.mp hs2).2
    simp only [decide_eq_true_eq] at hne
    exact hne hkey

theorem dd_eq_self (l : List TransactionRecord)
    (h : (l.map dupKey).Nodup) : drop_duplicates l = l := by
  induction l with
  | nil => simp [drop_duplicates]
  | cons r rs ih =>
    rw [dd_cons]
    rw [List.map_cons, List.nodup_cons] at h
    have hfil : rs.filter (fun s => decide (dupKey s ≠ dupKey r)) = rs := by
      apply List.filter_eq_self.mpr
      intro s hs
      simp only [decide_eq_true_eq]
      intro heq
      exact h.1 (List.mem_map.mpr ⟨s, hs, heq⟩)
    rw [hfil, ih h.2]

theorem dd_filter_key (l : List TransactionRecord) (k : Cell × Cell × Int × Int) :
    (drop_duplicates l).filter (fun s => decide (dupKey s = k)) =
      (l.filter (fun s => decide (dupKey s = k))).take 1 := by
  induction l using drop_duplicates.induct with
  | case1 => simp [drop_duplicates]
  | case2 r rs ih =>
    rw [dd_cons]
    by_cases hk : dupKey r = k
    · rw [List.filter_cons_of_pos (by simp [hk]),
        List.filter_cons_of_pos (by simp [hk])]
      have hempty : (drop_duplicates (rs.filter
          (fun s => decide (dupKey s ≠ dupKey r)))).filter
            (fun s => decide (dupKey s = k)) = [] := by
        apply List.filter_eq_nil_iff.mpr
        intro s hs hdec
        have hs2 := (dd_sublist _).subset hs
        have hne := (List.mem_filter.mp hs2).2
        simp only [decide_eq_true_eq] at hne hdec
        exact hne (hdec.trans hk.symm)
      rw [hempty]
      simp
    · rw [List.filter_cons_of_neg (by simp [hk]),
        List.filter_cons_of_neg (by simp [hk]), ih]
      congr 1
      rw [List.filter_filter]
      apply List.filter_congr
      intro a ha
      by_cases h2 : dupKey a = k
      · have h3 : dupKey a ≠ dupKey r := by
          rw [h2]; exact fun he => hk he.symm
        simp [h2, h3]
        exact fun he => hk he.symm
      · simp [h2]

theorem filter_length_split {α : Type} (p q : α → Bool) (l : List α) :
    (l.filter p).length =
      ((l.filter q).filter p).length +
        ((l.filter (fun a => !q a)).filter p).length := by
  induction l with
  | nil => rfl
  | cons a l ih =>
    by_cases hq : q a
    all_goals by_cases hp : p a
    all_goals simp [List.filter_cons, hq, hp, ih]
    all_goals omega

theorem filter_length_total {α : Type} (q : α → Bool) (l : List α) :
    (l.filter q).length + (l.filter (fun a => !q a)).length = l.length := by
  induction l with
  | nil => rfl
  | cons a l ih =>
    by_cases hq : q a
    all_goals simp [List.filter_cons, hq]
    all_goals omega

theorem countKey_cons (r : TransactionRecord) (rs : List TransactionRecord)
    (k : Cell × Cell × Int × Int) :
    countKey (r :: rs) k = (if dupKey r = k then 1 else 0) + countKey rs k := by
  by_cases h : dupKey r = k
  · simp [countKey, List.filter_cons, h]
    omega
  · simp [countKey, List.filter_cons, h]

theorem countKey_filter_ne (r : TransactionRecord) (rs : List TransactionRecord)
    (k : Cell × Cell × Int × Int) (hk : k ≠ dupKey r) :
    countKey (rs.filter (fun s => decide (dupKey s ≠ dupKey r))) k =
      countKey rs k := by
  unfold countKey
  rw [List.filter_filter]
  congr 1
  apply List.filter_congr
  intro a ha
  by_cases h2 : dupKey a = k
  · have h3 : dupKey a ≠ dupKey r := by rw [h2]; exact hk
    simp [h2, h3]
    exact hk
  · simp [h2]

theorem filter_ne_eq_filter_not (r : TransactionRecord)
    (rs : List TransactionRecord) :
    rs.filter (fun s => decide (dupKey s ≠ dupKey r)) =
      rs.filter (fun s => !(decide (dupKey s = dupKey r))) := by
  apply List.filter_congr
  intro a ha
  exact decide_not

theorem findDup_cons_filter (r : TransactionRecord) (rs : List TransactionRecord) :
    (rs.filter (fun s => decide (2 ≤ countKey (r :: rs) (dupKey s)))).length =
      countKey rs (dupKey r) +
        (findDuplicates (rs.filter
          (fun s => decide (dupKey s ≠ dupKey r)))).length := by
  rw [filter_length_split (fun s => decide (2 ≤ countKey (r :: rs) (dupKey s)))
    (fun s => decide (dupKey s = dupKey r)) rs]
  congr 1
  · have hself : (rs.filter (fun s => decide (dupKey s = dupKey r))).filter
        (fun s => decide (2 ≤ countKey (r :: rs) (dupKey s))) =
          rs.filter (fun s => decide (dupKey s = dupKey r)) := by
      apply List.filter_eq_self.mpr
      intro s hs
      have hkey := (List.mem_filter.mp hs).2
      simp only [decide_eq_true_eq] at hkey ⊢
      rw [hkey, countKey_cons, if_pos rfl]
      have hpos : 0 < countKey rs (dupKey r) := List.length_pos_of_mem hs
      omega
    rw [hself]
    rfl
  · rw [← filter_ne_eq_filter_not]
    congr 1
    unfold findDuplicates
    apply List.filter_congr
    intro s hs
    have hne : dupKey s ≠ dupKey r := by
      have := (List.mem_filter.mp hs).2
      simpa using this
    have h1 : countKey (r :: rs) (dupKey s) = countKey rs (dupKey s) := by
      rw [countKey_cons, if_neg (fun h => hne h.symm)]
      simp
    have h2 := countKey_filter_ne r rs (dupKey s) hne
    rw [h1, ← h2]

theorem length_le_findDup_add_dd (l : List TransactionRecord) :
    l.length ≤ (findDuplicates l).length + (drop_duplicates l).length := by
  induction l using drop_duplicates.induct with
  | case1 => simp [findDuplicates, drop_duplicates]
  | case2 r rs ih =>
    rw [dd_cons]
    have hsplit := findDup_cons_filter r rs
    have htot : countKey rs (dupKey r) +
        (rs.filter (fun s => decide (dupKey s ≠ dupKey r))).length = rs.length := by
      have h0 := filter_length_total (fun s => decide (dupKey s = dupKey r)) rs
      rw [filter_ne_eq_filter_not]
      exact h0
    rw [findDuplicates]
    by_cases hpred : 2 ≤ countKey (r :: rs) (dupKey r)
    · rw [List.filter_cons_of_pos (by simpa using hpred)]
      simp only [List.length_cons]
      omega
    · rw [List.filter_cons_of_neg (by simpa using hpred)]
      simp only [List.length_cons]
      omega

/-- C1: `findDuplicates` returns exactly the records whose composite key
(date, account, expense, revenue) occurs at least twice in the ledger —
all members of every collision group — while `drop_duplicates` keeps a
subsequence of the ledger containing, for each key, exactly the first
record carrying it; consequently the number of records the removal drops
never exceeds the size of the reported duplicate set. -/
theorem duplicates_spec (df : List TransactionRecord) :
    (∀ r, r ∈ findDuplicates df ↔ r ∈ df ∧ 2 ≤ countKey df (dupKey r))
    ∧ List.Sublist (drop_duplicates df) df
    ∧ (∀ k, (drop_duplicates df).filter (fun s => decide (dupKey s = k)) =
        (df.filter (fun s => decide (dupKey s = k))).take 1)
    ∧ df.length - (drop_duplicates df).length ≤ (findDuplicates df).length := by
  refine ⟨?_, dd_sublist df, dd_filter_key df, ?_⟩
  · intro r
    simp [findDuplicates, List.mem_filter]
  · have := length_le_findDup_add_dd df
    omega

/-- C6: `drop_duplicates` is idempotent: applying it to its own result
removes zero additional records and returns the same ledger. -/
theorem drop_duplicates_idempotent (df : List TransactionRecord) :
    drop_duplicates (drop_duplicates df) = drop_duplicates df :=
  dd_eq_self (drop_duplicates df) (dd_keys_nodup df)

theorem monthIndexAux_inj (L : List String) (a b : Cell)
    (ha : a ∈ L.map Cell.text) (hb : b ∈ L.map Cell.text)
    (h : monthIndexAux a L = monthIndexAux b L) : a = b := by
  induction L with
  | nil => simp at ha
  | cons m ms ih =>
    simp only [monthIndexAux] at h
    by_cases h1 : a = Cell.text m
    all_goals by_cases h2 : b = Cell.text m
    · rw [h1, h2]
    · rw [if_pos h1, if_neg h2] at h
      omega
    · rw [if_neg h1, if_pos h2] at h
      omega
    · rw [if_neg h1, if_neg h2] at h
      have ha2 : a ∈ ms.map Cell.text := by
        rcases List.mem_map.mp ha with ⟨x, hx, hxa⟩
        rcases List.mem_cons.mp hx with hxm | hxm
        · exact absurd (by rw [← hxa, hxm]) h1
        · exact List.mem_map.mpr ⟨x, hxm, hxa⟩
      have hb2 : b ∈ ms.map Cell.text := by
        rcases List.mem_map.mp hb with ⟨x, hx, hxb⟩
        rcases List.mem_cons.mp hx with hxm | hxm
        · exact absurd (by rw [← hxb, hxm]) h2
        · exact List.mem_map.mpr ⟨x, hxm, hxb⟩
      exact ih ha2 hb2 (by omega)

theorem group_sum_map_month (df : List TransactionRecord) :
    (group_sum df).map MonthRow.month = (df.map TransactionRecord.month).dedup := by
  simp [group_sum, List.map_map, Function.comp_def]

theorem mem_monthly_data_month (df : List TransactionRecord) (m : Cell) :
    (∃ row ∈ monthly_data df, row.month = m) ↔ ∃ r ∈ df, r.month = m := by
  constructor
  · rintro ⟨row, hrow, hmm⟩
    rw [monthly_data, List.mem_mergeSort] at hrow
    have h1 : row.month ∈ (group_sum df).map MonthRow.month :=
      List.mem_map.mpr ⟨row, hrow, rfl⟩
    rw [group_sum_map_month] at h1
    rcases List.mem_map.mp (List.mem_dedup.mp h1) with ⟨r, hr, hrm⟩
    exact ⟨r, hr, by rw [hrm, hmm]⟩
  · rintro ⟨r, hr, hmm⟩
    have h1 : m ∈ df.map TransactionRecord.month := List.mem_map.mpr ⟨r, hr, hmm⟩
    have h2 : m ∈ (group_sum df).map MonthRow.month := by
      rw [group_sum_map_month]
      exact List.mem_dedup.mpr h1
    rcases List.mem_map.mp h2 with ⟨row, hrow, hm2⟩
    refine ⟨row, ?_, hm2⟩
    rw [monthly_data, List.mem_mergeSort]
    exact hrow

theorem monthly_data_sorted (df : List TransactionRecord)
    (hm : ∀ r ∈ df, r.month ∈ month_order.map Cell.text) :
    List.Pairwise (fun a b => monthIndex a.month < monthIndex b.month)
      (monthly_data df) := by
  have hs := @List.sorted_mergeSort MonthRow
    (fun a b => decide (monthIndex a.month ≤ monthIndex b.month))
    (by
      intro a b c hab hbc
      simp only [decide_eq_true_eq] at hab hbc ⊢
      omega)
    (by
      intro a b
      simp only [Bool.or_eq_true, decide_eq_true_eq]
      omega)
    (group_sum df)
  have hperm : List.Perm (monthly_data df) (group_sum df) :=
    List.mergeSort_perm _ _
  have hnodupm : ((monthly_data df).map MonthRow.month).Nodup := by
    have hgs : ((group_sum df).map MonthRow.month).Nodup := by
      rw [group_sum_map_month]
      exact List.nodup_dedup _
    exact ((hperm.map MonthRow.month).nodup_iff).mpr hgs
  have hcanon : ∀ row ∈ monthly_data df, row.month ∈ month_order.map Cell.text := by
    intro row hrow
    rcases (mem_monthly_data_month df row.month).mp ⟨row, hrow, rfl⟩ with ⟨r, hr, hrm⟩
    rw [← hrm]
    exact hm r hr
  have hnodupidx : ((monthly_data df).map
      (fun row => monthIndex row.month)).Nodup := by
    have heq : (monthly_data df).map (fun row => monthIndex row.month) =
        ((monthly_data df).map MonthRow.month).map monthIndex := by
      rw [List.map_map]
      rfl
    rw [heq]
    apply List.Nodup.map_on ?_ hnodupm
    intro x hx y hy hxy
    rcases List.mem_map.mp hx with ⟨rx, hrx, hrxe⟩
    rcases List.mem_map.mp hy with ⟨ry, hry, hrye⟩
    refine monthIndexAux_inj month_order x y ?_ ?_ hxy
    · rw [← hrxe]
      exact hcanon rx hrx
    · rw [← hrye]
      exact hcanon ry hry
  have hne : List.Pairwise
      (fun a b : MonthRow => monthIndex a.month ≠ monthIndex b.month)
      (monthly_data df) :=
    List.pairwise_map.mp hnodupidx
  have hle2 : List.Pairwise
      (fun a b : MonthRow => monthIndex a.month ≤ monthIndex b.month)
      (monthly_data df) := by
    refine List.Pairwise.imp ?_ hs
    intro a b hab
    simpa using hab
  exact (hle2.and hne).imp (fun h => lt_of_le_of_ne h.1 h.2)

/-- C5: for every ledger whose month values are canonical month names,
the monthly rollup is strictly ordered by the fixed January-to-December
category ordering regardless of input row order, and a month appears in
the output exactly when some ledger record carries it (absent months are
omitted, not zero-filled). -/
theorem monthly_rollup_canonical (df : List TransactionRecord)
    (hm : ∀ r ∈ df, r.month ∈ month_order.map Cell.text) :
    List.Pairwise (fun a b => monthIndex a.month < monthIndex b.month)
      (monthly_data df)
    ∧ ∀ m : Cell, (∃ row ∈ monthly_data df, row.month = m) ↔
        ∃ r ∈ df, r.month = m :=
  ⟨monthly_data_sorted df hm, fun m => mem_monthly_data_month df m⟩

theorem monthly_rollup_canonical_witness :
    List.Pairwise (fun a b => monthIndex a.month < monthIndex b.month)
      (monthly_data sampleLedger) :=
  (monthly_rollup_canonical sampleLedger (by decide)).1
